import Mathlib

/-!
Shallow embedding of `src/ai_video_editor.py` (AutoShorts).

All times are modelled as rationals.  The transcription dictionary returned
by the speech model is modelled by `Transcription`: a list of segments, each
carrying its own start and end bounds plus a word list with word-level
bounds.  The text payloads are never read by the program and are omitted.
Since `end` is a Lean keyword, every end bound is modelled by a field named
`stop`.
-/

/-- A word-level timestamp entry of a transcription segment: the `start` and
`end` keys of one element of a segment's word list. -/
structure Word where
  start : ℚ
  stop : ℚ

/-- One element of the transcription's segment list: the segment's bounds and
its word list. -/
structure Segment where
  start : ℚ
  stop : ℚ
  words : List Word

/-- The transcription dictionary: only its segment list is ever read by the
program. -/
structure Transcription where
  segments : List Segment

/-- The occupied intervals the code actually iterates over: line 67 binds the
loop variable to `transcription['segments']`, so each occupied interval is a
segment-level start and end pair. -/
def segmentIntervals (t : Transcription) : List (ℚ × ℚ) :=
  t.segments.map fun s => (s.start, s.stop)

/-- The flattened word-level occupied intervals of a transcription, in
transcript order.  This is what the spec text describes; the code never
computes it. -/
def flattenedWordIntervals (t : Transcription) : List (ℚ × ℚ) :=
  (t.segments.map fun s => s.words.map fun w => (w.start, w.stop)).flatten

/-- The loop of `identify_silence_periods` (lines 66-85): `previous_end`
starts at 0; each occupied interval may contribute the gap since
`previous_end` when that gap exceeds `threshold`, shrunk by `buffer` on both
sides and clamped to `video_duration`; after the last occupied interval the
same test is applied against `video_duration` (lines 80-83). -/
def silenceLoop (video_duration threshold buffer : ℚ) :
    List (ℚ × ℚ) → ℚ → List (ℚ × ℚ)
  | [], previous_end =>
    if video_duration - previous_end > threshold then
      let end_time := min (video_duration - buffer) video_duration
      if end_time > previous_end + buffer then [(previous_end + buffer, end_time)]
      else []
    else []
  | w :: ws, previous_end =>
    let rest := silenceLoop video_duration threshold buffer ws w.2
    if w.1 - previous_end > threshold then
      let end_time := min (w.1 - buffer) video_duration
      if end_time > previous_end + buffer then (previous_end + buffer, end_time) :: rest
      else rest
    else rest

/-- Lines 54-85: `identify_silence_periods`.  The Python defaults are
threshold 1 and buffer 1/10; both are passed explicitly here. -/
def identify_silence_periods (transcription : Transcription)
    (video_duration threshold buffer : ℚ) : List (ℚ × ℚ) :=
  silenceLoop video_duration threshold buffer (segmentIntervals transcription) 0

/-- Gap detection the way the spec phrases it, over an explicit list of
occupied intervals: the previous-end sequence `0, e1, ..., en` is zipped with
the next-boundary sequence `s1, ..., sn, video_duration` (the chunk end acts
as an implicit final boundary) and each adjacent pair is tested
independently: a gap wider than `threshold` whose buffered interior is
non-degenerate becomes one silence interval. -/
def spec_silence_detect (occupied : List (ℚ × ℚ))
    (video_duration threshold buffer : ℚ) : List (ℚ × ℚ) :=
  ((0 :: occupied.map Prod.snd).zip
      (occupied.map Prod.fst ++ [video_duration])).filterMap fun g =>
    if g.2 - g.1 > threshold ∧ min (g.2 - buffer) video_duration > g.1 + buffer then
      some (g.1 + buffer, min (g.2 - buffer) video_duration)
    else none

/-- The keep-span loop of `cut_silences` (lines 105-118), relative to the
subclipped range of length `duration`: `last_end` starts at 0; a silence
whose start exceeds the clip duration stops the loop (the `break` at
line 111); otherwise the span from `last_end` to the silence start is kept
when non-degenerate and `last_end` advances to the clamped silence end; after
the loop the tail span is kept when anything remains (lines 117-118). -/
def keepLoop (duration : ℚ) : List (ℚ × ℚ) → ℚ → List (ℚ × ℚ)
  | [], last_end => if last_end < duration then [(last_end, duration)] else []
  | s :: rest, last_end =>
    if s.1 > duration then
      if last_end < duration then [(last_end, duration)] else []
    else
      let tail := keepLoop duration rest (min s.2 duration)
      if last_end < s.1 then (last_end, min s.1 duration) :: tail else tail

/-- Lines 98-130 of `cut_silences`, as the list of kept sub-spans (relative
to the subclipped range of length `duration`) whose concatenation is written
out: when the loop keeps no clip, line 128 re-emits the whole subclipped
range. -/
def cut_silences_spans (duration : ℚ) (silence_periods : List (ℚ × ℚ)) :
    List (ℚ × ℚ) :=
  let clips := keepLoop duration silence_periods 0
  if clips = [] then [(0, duration)] else clips

/-- Lines 19-47 of `process_video_chunk`, restricted to the data flow that
determines the produced output spans on an exception-free run: the chunk
duration is `end_time - start_time` (lines 21-22); silences are detected with
threshold 1/2 and the default buffer 1/10 (line 39); each silence is shifted
by `start_time` (line 42); and the shifted list is handed to `cut_silences`
together with the chunk range (line 45), which subclips the source to that
range (duration `end_time - start_time`) before walking the silences. -/
def process_video_chunk_cuts (t : Transcription) (start_time end_time : ℚ) :
    List (ℚ × ℚ) :=
  let chunk_duration := end_time - start_time
  let silence_periods := identify_silence_periods t chunk_duration (1 / 2) (1 / 10)
  let adjusted := silence_periods.map fun p => (p.1 + start_time, p.2 + start_time)
  cut_silences_spans chunk_duration adjusted

/-- Line 151: the chunk count.  Python `int(d / c)` truncates toward zero,
which equals the floor for the non-negative durations modelled here, and the
Python remainder `d % c` equals `d - c * floor (d / c)` for positive `c`. -/
def num_chunks (total_duration chunk_duration : ℚ) : ℕ :=
  (⌊total_duration / chunk_duration⌋ +
    if 0 < total_duration - chunk_duration * (⌊total_duration / chunk_duration⌋ : ℚ)
    then 1 else 0).toNat

/-- Lines 159-161: the full chunk partition, chunk `i` spanning from
`i * chunk_duration` to `min ((i + 1) * chunk_duration) total_duration`. -/
def chunk_list (total_duration chunk_duration : ℚ) : List (ℚ × ℚ) :=
  (List.range (num_chunks total_duration chunk_duration)).map fun (i : ℕ) =>
    ((i : ℚ) * chunk_duration, min (((i : ℚ) + 1) * chunk_duration) total_duration)

/-- Lines 163-168: the chunks actually handed to `process_video_chunk`, that
is, those not skipped by the guard dropping ranges shorter than one second
(line 164). -/
def processed_chunk_bounds (total_duration chunk_duration : ℚ) : List (ℚ × ℚ) :=
  (chunk_list total_duration chunk_duration).filter fun p => decide (¬ p.2 - p.1 < 1)

/-- The statements of the `try` block of `process_video_chunk` (lines 19-47)
at which an exception can be raised, grouped by their effect on the local
state: loading and subclipping the source (lines 21-22, before the temp path
variable is assigned at line 25), writing the temporary chunk file
(lines 25-27), transcribing it (lines 30-33), detecting and shifting the
silences (lines 39-42, after the temp file was removed at line 36), and the
cutting call (line 45). -/
inductive FailStep
  | extractLoad
  | extractWrite
  | transcribe
  | detect
  | cut
  deriving DecidableEq

/-- Outcome observed by the caller of `process_video_chunk`: the function
returns True, returns False, or an exception escapes it. -/
inductive ProcOutcome
  | success
  | failure
  | uncaught
  deriving DecidableEq

/-- Result of one run of `process_video_chunk`: the outcome at the call
boundary, plus whether the temporary chunk file still exists afterwards. -/
structure ProcResult where
  outcome : ProcOutcome
  tempSurvives : Bool
  deriving DecidableEq

/-- The handler of lines 48-52: it reads the local variable holding the
temporary chunk path; when that variable was assigned, the file is removed if
it exists and False is returned; when the `try` block raised before line 25,
the variable lookup itself raises, so the new exception escapes the function
and any file state is left untouched. -/
def except_handler (tempAssigned tempOnDisk : Bool) : ProcResult :=
  if tempAssigned then ⟨ProcOutcome.failure, false⟩
  else ⟨ProcOutcome.uncaught, tempOnDisk⟩

/-- Whether an exception escapes `cut_silences`: its handler at lines 131-134
catches every exception and the function returns normally, so no exception
escapes regardless of an internal error. -/
def cut_silences_raises (_inner_error : Bool) : Bool :=
  false

/-- Control flow of `process_video_chunk` (lines 19-52) as a function of the
first step that raises, if any: the `try` body runs in order and transfers to
the handler at the first raising step, recording whether the temp path
variable was assigned and whether the temporary file is on disk at that
point; an error inside the cutting call never reaches the handler because
`cut_silences` catches it itself, after which line 47 returns True. -/
def process_video_chunk_run (failAt : Option FailStep) : ProcResult :=
  if failAt = some FailStep.extractLoad then
    except_handler false false
  else if failAt = some FailStep.extractWrite then
    except_handler true true
  else if failAt = some FailStep.transcribe then
    except_handler true true
  else if failAt = some FailStep.detect then
    except_handler true false
  else if failAt = some FailStep.cut then
    if cut_silences_raises true then except_handler true false
    else ⟨ProcOutcome.success, false⟩
  else ⟨ProcOutcome.success, false⟩

/-- What re-opening one successfully-reported chunk file at lines 175-186
does: raise while loading (the chunk file is then removed at lines 185-186),
load with duration 0 (removed at lines 181-182), or load as a usable clip. -/
inductive ChunkLoad
  | loadError
  | zeroDuration
  | ok
  deriving DecidableEq

/-- Observable cleanup state when `process_long_video` returns. -/
structure AssemblyResult where
  outputWritten : Bool
  tempDirRemoved : Bool
  chunkFilesRemaining : Nat
  deriving DecidableEq

/-- The assembly and cleanup phase of `process_long_video` (lines 171-206),
as a function of how each collected chunk file re-opens, assuming the final
concatenation write itself succeeds: with no collected chunk, line 206 only
prints (the temp directory created at line 155 stays); with collected chunks
but no clip surviving the zero-duration filter, line 204 only prints (the
unusable chunk files were removed at lines 182 and 186, the temp directory
stays); otherwise the output is written and lines 195-201 remove every chunk
file and the temp directory. -/
def assemble (loads : List ChunkLoad) : AssemblyResult :=
  if loads = [] then ⟨false, false, 0⟩
  else
    let final_clips := loads.filter fun l => decide (l = ChunkLoad.ok)
    if final_clips = [] then ⟨false, false, 0⟩
    else ⟨true, true, 0⟩

/-- Transcript of the spec round-trip test: occupied intervals at 0-2, 2-4
and 8-10; each segment's word list mirrors the segment. -/
def tRoundTrip : Transcription :=
  ⟨[⟨0, 2, [⟨0, 2⟩]⟩, ⟨2, 4, [⟨2, 4⟩]⟩, ⟨8, 10, [⟨8, 10⟩]⟩]⟩

/-- A transcript whose single segment spans 0-10 while its words sit at 0-1
and 9-10: the segment-level and word-level readings of the gap rule disagree
on it. -/
def tSplitWords : Transcription :=
  ⟨[⟨0, 10, [⟨0, 1⟩, ⟨9, 10⟩]⟩]⟩

/-- Transcript obtained for the second chunk of a long video: speech at 0-5
and 25-30 of a 300-second chunk, in chunk-relative time. -/
def tOffsetChunk : Transcription :=
  ⟨[⟨0, 5, [⟨0, 5⟩]⟩, ⟨25, 30, [⟨25, 30⟩]⟩]⟩

/- Helper lemmas about the silence-detection loop. -/

/-- Every silence interval produced by the loop starts at or after
`lo + buffer`, whenever `lo` bounds `previous_end` and every occupied start
from below (occupied intervals being well-formed). -/
theorem silenceLoop_mem_lower (video_duration threshold buffer : ℚ)
    (occ : List (ℚ × ℚ)) (previous_end lo : ℚ) (hprev : lo ≤ previous_end)
    (hocc : ∀ o ∈ occ, lo ≤ o.1 ∧ o.1 ≤ o.2) :
    ∀ p ∈ silenceLoop video_duration threshold buffer occ previous_end,
      lo + buffer ≤ p.1 := by
  induction occ generalizing previous_end with
  | nil =>
    intro p hp
    simp only [silenceLoop] at hp
    split at hp
    · split at hp
      · rw [List.mem_singleton] at hp
        subst hp
        exact add_le_add_right hprev buffer
      · simp at hp
    · simp at hp
  | cons w ws ih =>
    intro p hp
    have hw := hocc w (List.mem_cons_self w ws)
    have hocc' : ∀ o ∈ ws, lo ≤ o.1 ∧ o.1 ≤ o.2 := fun o ho =>
      hocc o (List.mem_cons_of_mem w ho)
    have hnext : lo ≤ w.2 := le_trans hw.1 hw.2
    simp only [silenceLoop] at hp
    split at hp
    · split at hp
      · rcases List.mem_cons.mp hp with h | h
        · subst h
          exact add_le_add_right hprev buffer
        · exact ih w.2 hnext hocc' p h
      · exact ih w.2 hnext hocc' p hp
    · exact ih w.2 hnext hocc' p hp

/-- Every silence interval produced by the loop is non-degenerate and ends no
later than `video_duration`. -/
theorem silenceLoop_mem_bounds (video_duration threshold buffer : ℚ)
    (occ : List (ℚ × ℚ)) (previous_end : ℚ) :
    ∀ p ∈ silenceLoop video_duration threshold buffer occ previous_end,
      p.1 < p.2 ∧ p.2 ≤ video_duration := by
  induction occ generalizing previous_end with
  | nil =>
    intro p hp
    simp only [silenceLoop] at hp
    split at hp
    · split at hp
      · rw [List.mem_singleton] at hp
        subst hp
        rename_i hgt
        exact ⟨hgt, min_le_right _ _⟩
      · simp at hp
    · simp at hp
  | cons w ws ih =>
    intro p hp
    simp only [silenceLoop] at hp
    split at hp
    · split at hp
      · rcases List.mem_cons.mp hp with h | h
        · subst h
          rename_i hgt
          exact ⟨hgt, min_le_right _ _⟩
        · exact ih w.2 p h
      · exact ih w.2 p hp
    · exact ih w.2 p hp

/-- Silence intervals are emitted in order: each one ends no later than the
next one starts, provided the occupied intervals are well-formed, sorted by
start, and the buffer is non-negative. -/
theorem silenceLoop_pairwise (video_duration threshold buffer : ℚ)
    (hb : 0 ≤ buffer) (occ : List (ℚ × ℚ)) (previous_end : ℚ)
    (hocc : ∀ o ∈ occ, o.1 ≤ o.2)
    (hsorted : occ.Pairwise fun a c => a.1 ≤ c.1) :
    (silenceLoop video_duration threshold buffer occ previous_end).Pairwise
      fun p q => p.2 ≤ q.1 := by
  induction occ generalizing previous_end with
  | nil =>
    simp only [silenceLoop]
    split
    · split
      · exact List.pairwise_singleton _ _
      · exact List.Pairwise.nil
    · exact List.Pairwise.nil
  | cons w ws ih =>
    have hw : w.1 ≤ w.2 := hocc w (List.mem_cons_self w ws)
    have hocc' : ∀ o ∈ ws, o.1 ≤ o.2 := fun o ho => hocc o (List.mem_cons_of_mem w ho)
    have hhead : ∀ o ∈ ws, w.1 ≤ o.1 := fun o ho => List.rel_of_pairwise_cons hsorted ho
    have hrest := ih w.2 hocc' hsorted.of_cons
    simp only [silenceLoop]
    split
    · split
      · refine List.Pairwise.cons ?_ hrest
        intro q hq
        have hq1 : w.1 + buffer ≤ q.1 :=
          silenceLoop_mem_lower video_duration threshold buffer ws w.2 w.1 hw
            (fun o ho => ⟨hhead o ho, hocc' o ho⟩) q hq
        have hm : min (w.1 - buffer) video_duration ≤ w.1 - buffer := min_le_left _ _
        simp only
        linarith
      · exact hrest
    · exact hrest

/-- The loop of the detector computes exactly the spec's independent
adjacent-gap tests: previous ends (seeded by `previous_end`) zipped against
next starts with the chunk end as final boundary. -/
theorem silenceLoop_eq_spec (video_duration threshold buffer : ℚ)
    (occ : List (ℚ × ℚ)) (previous_end : ℚ) :
    silenceLoop video_duration threshold buffer occ previous_end =
      ((previous_end :: occ.map Prod.snd).zip
          (occ.map Prod.fst ++ [video_duration])).filterMap (fun g =>
        if g.2 - g.1 > threshold ∧
            min (g.2 - buffer) video_duration > g.1 + buffer then
          some (g.1 + buffer, min (g.2 - buffer) video_duration)
        else none) := by
  induction occ generalizing previous_end with
  | nil =>
    by_cases h1 : video_duration - previous_end > threshold
    · by_cases h2 : min (video_duration - buffer) video_duration > previous_end + buffer
      · simp [silenceLoop, List.filterMap, h1, h2]
      · simp [silenceLoop, List.filterMap, h1, h2]
    · simp [silenceLoop, List.filterMap, h1]
  | cons w ws ih =>
    simp only [silenceLoop, List.map_cons, List.cons_append, List.zip_cons_cons,
      List.filterMap_cons, ih w.2]
    by_cases h1 : w.1 - previous_end > threshold
    · by_cases h2 : min (w.1 - buffer) video_duration > previous_end + buffer
      · rw [if_pos h1, if_pos h2, if_pos ⟨h1, h2⟩]
      · rw [if_pos h1, if_neg h2, if_neg (fun hc => h2 hc.2)]
    · rw [if_neg h1, if_neg (fun hc => h1 hc.1)]

/-- Every span kept by the cutter's loop is non-degenerate. -/
theorem keepLoop_pos (duration : ℚ) (silences : List (ℚ × ℚ)) (last_end : ℚ) :
    ∀ p ∈ keepLoop duration silences last_end, p.1 < p.2 := by
  induction silences generalizing last_end with
  | nil =>
    intro p hp
    simp only [keepLoop] at hp
    split at hp
    · rw [List.mem_singleton] at hp
      subst hp
      assumption
    · simp at hp
  | cons s rest ih =>
    intro p hp
    simp only [keepLoop] at hp
    split at hp
    · split at hp
      · rw [List.mem_singleton] at hp
        subst hp
        assumption
      · simp at hp
    · rename_i hle
      split at hp
      · rcases List.mem_cons.mp hp with h | h
        · subst h
          rename_i hlt
          exact lt_min hlt (lt_of_lt_of_le hlt (not_lt.mp hle))
        · exact ih _ p h
      · exact ih _ p hp

/-- A non-empty list of non-degenerate spans has positive total length. -/
theorem sum_span_lengths_pos (l : List (ℚ × ℚ)) (hne : l ≠ [])
    (hpos : ∀ p ∈ l, p.1 < p.2) :
    0 < (l.map fun p => p.2 - p.1).sum := by
  cases l with
  | nil => exact absurd rfl hne
  | cons a l =>
    simp only [List.map_cons, List.sum_cons]
    have h1 : 0 < a.2 - a.1 := by
      have := hpos a (List.mem_cons_self a l)
      linarith
    have h2 : 0 ≤ (l.map fun p => p.2 - p.1).sum := by
      apply List.sum_nonneg
      intro x hx
      obtain ⟨p, hp, rfl⟩ := List.mem_map.mp hx
      have := hpos p (List.mem_cons_of_mem a hp)
      linarith
    linarith

/-- For a positive chunk size the code's floor-plus-remainder count is the
ceiling of the quotient. -/
theorem num_chunks_eq_ceil (total_duration chunk_duration : ℚ)
    (hC : 0 < chunk_duration) :
    num_chunks total_duration chunk_duration =
      ⌈total_duration / chunk_duration⌉.toNat := by
  unfold num_chunks
  rcases eq_or_lt_of_le (Int.floor_le (total_duration / chunk_duration)) with h | h
  · have heq : chunk_duration * (⌊total_duration / chunk_duration⌋ : ℚ) =
        total_duration := by
      rw [h, mul_comm, div_mul_cancel₀ total_duration (ne_of_gt hC)]
    have hceil : ⌈total_duration / chunk_duration⌉ =
        ⌊total_duration / chunk_duration⌋ := by
      rw [← h]
      simp
    rw [hceil, if_neg (by rw [heq]; simp), add_zero]
  · have hlt : chunk_duration * (⌊total_duration / chunk_duration⌋ : ℚ) <
        total_duration := by
      have h2 := (lt_div_iff₀ hC).mp h
      rw [mul_comm] at h2
      exact h2
    have hceil : ⌈total_duration / chunk_duration⌉ =
        ⌊total_duration / chunk_duration⌋ + 1 := by
      refine le_antisymm (Int.ceil_le_floor_add_one _) ?_
      have h2 : (⌊total_duration / chunk_duration⌋ : ℚ) <
          (⌈total_duration / chunk_duration⌉ : ℚ) :=
        lt_of_lt_of_le h (Int.le_ceil _)
      exact_mod_cast h2
    rw [hceil, if_pos (by linarith)]

/-- A chunk index is generated exactly when its start lies before the total
duration. -/
theorem lt_num_chunks_iff (total_duration chunk_duration : ℚ)
    (hC : 0 < chunk_duration) (i : ℕ) :
    i < num_chunks total_duration chunk_duration ↔
      (i : ℚ) * chunk_duration < total_duration := by
  rw [num_chunks_eq_ceil total_duration chunk_duration hC, Int.lt_toNat,
    Int.lt_ceil]
  rw [show (((i : ℤ) : ℚ)) = (i : ℚ) by push_cast; rfl]
  exact lt_div_iff₀ hC

/-- Claim C4: for every total duration and positive chunk size, the chunk
partition computed by `process_long_video` consists of non-degenerate,
contiguous chunks in increasing index order covering the half-open range from
0 to the total duration exactly, and every chunk handed to
`process_video_chunk` (no chunk shorter than 1 second is processed) has
length at least 1 second. -/
theorem C4_chunk_partition (total_duration chunk_duration : ℚ)
    (hC : 0 < chunk_duration) :
    (∀ p ∈ chunk_list total_duration chunk_duration, p.1 < p.2) ∧
    List.Chain' (fun a b => a.2 = b.1)
      (chunk_list total_duration chunk_duration) ∧
    (∀ t : ℚ, (0 ≤ t ∧ t < total_duration) ↔
      ∃ p ∈ chunk_list total_duration chunk_duration, p.1 ≤ t ∧ t < p.2) ∧
    (∀ p ∈ processed_chunk_bounds total_duration chunk_duration,
      1 ≤ p.2 - p.1) := by
  refine ⟨?_, ?_, ?_, ?_⟩
  · intro p hp
    rw [chunk_list] at hp
    obtain ⟨i, hi, rfl⟩ := List.mem_map.mp hp
    rw [List.mem_range] at hi
    refine lt_min ?_ ?_
    · exact mul_lt_mul_of_pos_right (lt_add_one (i : ℚ)) hC
    · exact (lt_num_chunks_iff total_duration chunk_duration hC i).mp hi
  · rcases hn : num_chunks total_duration chunk_duration with _ | m
    · simp [chunk_list, hn]
    · rw [chunk_list, hn, List.chain'_map, List.chain'_range_succ]
      intro k hk
      have hlt : ((k + 1 : ℕ) : ℚ) * chunk_duration < total_duration :=
        (lt_num_chunks_iff total_duration chunk_duration hC (k + 1)).mp (by omega)
      push_cast at hlt ⊢
      rw [min_eq_left (le_of_lt hlt)]
  · intro t
    constructor
    · rintro ⟨ht0, htD⟩
      have hfl0 : 0 ≤ ⌊t / chunk_duration⌋ :=
        Int.floor_nonneg.mpr (div_nonneg ht0 hC.le)
      have hkq : ((⌊t / chunk_duration⌋.toNat : ℕ) : ℚ) =
          ((⌊t / chunk_duration⌋ : ℤ) : ℚ) := by
        exact_mod_cast congrArg Int.cast (Int.toNat_of_nonneg hfl0)
      have h1 : ((⌊t / chunk_duration⌋.toNat : ℕ) : ℚ) * chunk_duration ≤ t := by
        rw [hkq, ← le_div_iff₀ hC]
        exact Int.floor_le _
      have h2 : t < (((⌊t / chunk_duration⌋.toNat : ℕ) : ℚ) + 1) * chunk_duration := by
        rw [hkq, ← div_lt_iff₀ hC]
        exact_mod_cast Int.lt_floor_add_one (t / chunk_duration)
      refine ⟨(((⌊t / chunk_duration⌋.toNat : ℕ) : ℚ) * chunk_duration,
          min ((((⌊t / chunk_duration⌋.toNat : ℕ) : ℚ) + 1) * chunk_duration)
            total_duration), ?_, h1, lt_min h2 htD⟩
      rw [chunk_list]
      refine List.mem_map.mpr ⟨⌊t / chunk_duration⌋.toNat, List.mem_range.mpr ?_, rfl⟩
      exact (lt_num_chunks_iff total_duration chunk_duration hC _).mpr
        (lt_of_le_of_lt h1 htD)
    · rintro ⟨p, hp, hp1, hp2⟩
      rw [chunk_list] at hp
      obtain ⟨i, _, rfl⟩ := List.mem_map.mp hp
      exact ⟨le_trans (mul_nonneg (Nat.cast_nonneg i) hC.le) hp1,
        lt_of_lt_of_le hp2 (min_le_right _ _)⟩
  · intro p hp
    rw [processed_chunk_bounds, List.mem_filter] at hp
    have h := of_decide_eq_true hp.2
    linarith [not_lt.mp h]

/-- Witness for C4 at a 310-second source with 300-second chunks. -/
theorem C4_chunk_partition_witness :
    (∀ p ∈ chunk_list 310 300, p.1 < p.2) ∧
    List.Chain' (fun a b => a.2 = b.1) (chunk_list 310 300) ∧
    (∀ t : ℚ, (0 ≤ t ∧ t < 310) ↔
      ∃ p ∈ chunk_list 310 300, p.1 ≤ t ∧ t < p.2) ∧
    (∀ p ∈ processed_chunk_bounds 310 300, 1 ≤ p.2 - p.1) :=
  C4_chunk_partition 310 300 (by norm_num)

/-- Claim C10: for well-formed transcriptions (non-negative segment
timestamps, non-decreasing starts, start at most end per segment) and a
non-negative buffer, every returned silence interval satisfies
`buffer ≤ start < end ≤ video_duration` (so the first `buffer` seconds are
never marked silent), the list is strictly increasing by start, and no two
returned intervals overlap. -/
theorem C10_detector_invariants (t : Transcription)
    (video_duration threshold buffer : ℚ) (hb : 0 ≤ buffer)
    (hseg : ∀ s ∈ t.segments, 0 ≤ s.start ∧ s.start ≤ s.stop)
    (hsorted : t.segments.Pairwise fun a b => a.start ≤ b.start) :
    (∀ p ∈ identify_silence_periods t video_duration threshold buffer,
      buffer ≤ p.1 ∧ p.1 < p.2 ∧ p.2 ≤ video_duration) ∧
    (identify_silence_periods t video_duration threshold buffer).Pairwise
      fun p q => p.1 < q.1 ∧ p.2 ≤ q.1 := by
  have hocc : ∀ o ∈ segmentIntervals t, 0 ≤ o.1 ∧ o.1 ≤ o.2 := by
    intro o ho
    rw [segmentIntervals] at ho
    obtain ⟨s, hs, rfl⟩ := List.mem_map.mp ho
    exact hseg s hs
  have hsort2 : (segmentIntervals t).Pairwise fun a b => a.1 ≤ b.1 := by
    rw [segmentIntervals, List.pairwise_map]
    exact hsorted
  rw [identify_silence_periods]
  constructor
  · intro p hp
    have h1 := silenceLoop_mem_lower video_duration threshold buffer
      (segmentIntervals t) 0 0 le_rfl hocc p hp
    have h2 := silenceLoop_mem_bounds video_duration threshold buffer
      (segmentIntervals t) 0 p hp
    exact ⟨by linarith, h2.1, h2.2⟩
  · have hpw := silenceLoop_pairwise video_duration threshold buffer hb
      (segmentIntervals t) 0 (fun o ho => (hocc o ho).2) hsort2
    refine List.Pairwise.imp_of_mem ?_ hpw
    intro p q hp _ hpq
    have h2 := silenceLoop_mem_bounds video_duration threshold buffer
      (segmentIntervals t) 0 p hp
    exact ⟨lt_of_lt_of_le h2.1 hpq, hpq⟩

/-- Witness for C10 on the round-trip transcript. -/
theorem C10_detector_invariants_witness :
    (∀ p ∈ identify_silence_periods tRoundTrip 10 1 (1 / 10),
      (1 : ℚ) / 10 ≤ p.1 ∧ p.1 < p.2 ∧ p.2 ≤ 10) ∧
    (identify_silence_periods tRoundTrip 10 1 (1 / 10)).Pairwise
      fun p q => p.1 < q.1 ∧ p.2 ≤ q.1 :=
  C10_detector_invariants tRoundTrip 10 1 (1 / 10) (by norm_num)
    (by norm_num [tRoundTrip]) (by norm_num [tRoundTrip])

/-- Claim C6 (amended): `identify_silence_periods` computes silence
candidates as gaps between consecutive occupied intervals drawn from the
transcription's segment-level list (each occupied interval being a segment's
own start and end), not from the flattened word-level list: it equals the
spec's adjacent-gap rule applied to the segment intervals. -/
theorem C6_segment_level_gap_rule (t : Transcription)
    (video_duration threshold buffer : ℚ) :
    identify_silence_periods t video_duration threshold buffer =
      spec_silence_detect (segmentIntervals t) video_duration threshold buffer := by
  rw [identify_silence_periods, spec_silence_detect]
  exact silenceLoop_eq_spec video_duration threshold buffer (segmentIntervals t) 0

/-- Counterexample for C6 as stated: on `tSplitWords` the function returns no
interval, while the gap rule over the flattened word-level list returns one,
so the function does not draw its occupied intervals from the word list. -/
theorem C6_word_level_counterexample :
    identify_silence_periods tSplitWords 10 1 (1 / 10) = [] ∧
    spec_silence_detect (flattenedWordIntervals tSplitWords) 10 1 (1 / 10) =
      [(11 / 10, 89 / 10)] ∧
    identify_silence_periods tSplitWords 10 1 (1 / 10) ≠
      spec_silence_detect (flattenedWordIntervals tSplitWords) 10 1 (1 / 10) := by
  refine ⟨?_, ?_, ?_⟩ <;>
    norm_num [identify_silence_periods, spec_silence_detect, segmentIntervals,
      flattenedWordIntervals, tSplitWords, silenceLoop, List.filterMap_cons,
      List.zip_cons_cons]

/-- Claim C7: for a non-empty source range, `cut_silences` never produces a
zero-duration output: the kept spans are non-empty and each non-degenerate,
their total length is positive, and when the loop keeps nothing the full
unmodified range is re-emitted. -/
theorem C7_cutter_never_empty (duration : ℚ) (silences : List (ℚ × ℚ))
    (h : 0 < duration) :
    cut_silences_spans duration silences ≠ [] ∧
    (∀ p ∈ cut_silences_spans duration silences, p.1 < p.2) ∧
    0 < ((cut_silences_spans duration silences).map fun p => p.2 - p.1).sum ∧
    (keepLoop duration silences 0 = [] →
      cut_silences_spans duration silences = [(0, duration)]) := by
  by_cases hk : keepLoop duration silences 0 = []
  · have hs : cut_silences_spans duration silences = [(0, duration)] := by
      simp only [cut_silences_spans]
      rw [if_pos hk]
    rw [hs]
    refine ⟨by simp, ?_, ?_, fun _ => rfl⟩
    · intro p hp
      rw [List.mem_singleton] at hp
      subst hp
      exact h
    · simpa using h
  · have hs : cut_silences_spans duration silences =
        keepLoop duration silences 0 := by
      simp only [cut_silences_spans]
      rw [if_neg hk]
    rw [hs]
    exact ⟨hk, keepLoop_pos duration silences 0,
      sum_span_lengths_pos _ hk (keepLoop_pos duration silences 0),
      fun hcontr => absurd hcontr hk⟩

/-- Witness for C7 on a 1-second range fully covered by one silence. -/
theorem C7_cutter_never_empty_witness :
    cut_silences_spans 1 [(0, 1)] ≠ [] ∧
    (∀ p ∈ cut_silences_spans 1 [(0, 1)], p.1 < p.2) ∧
    0 < ((cut_silences_spans 1 [(0, 1)]).map fun p => p.2 - p.1).sum ∧
    (keepLoop 1 [(0, 1)] 0 = [] → cut_silences_spans 1 [(0, 1)] = [(0, 1)]) :=
  C7_cutter_never_empty 1 [(0, 1)] one_pos

/-- Claim C8 (amended): for an empty segment list, if the chunk duration
exceeds the threshold (and, with a non-negative buffer, exceeds twice the
buffer), `identify_silence_periods` returns exactly one interval spanning the
chunk up to a buffer margin at each end, namely from `buffer` to
`video_duration - buffer`; and a chunk shorter than the threshold yields no
intervals. -/
theorem C8_empty_segment_list (t : Transcription)
    (video_duration threshold buffer : ℚ) (hseg : t.segments = []) :
    (0 ≤ buffer → threshold < video_duration →
      buffer + buffer < video_duration →
      identify_silence_periods t video_duration threshold buffer =
        [(buffer, video_duration - buffer)]) ∧
    (video_duration < threshold →
      identify_silence_periods t video_duration threshold buffer = []) := by
  rw [identify_silence_periods, segmentIntervals, hseg]
  simp only [List.map_nil]
  constructor
  · intro hb h1 h2
    simp only [silenceLoop]
    rw [if_pos (by linarith), min_eq_left (by linarith),
      if_pos (by linarith), zero_add]
  · intro h1
    simp only [silenceLoop]
    rw [if_neg (by linarith)]

/-- Witness for C8 on an empty transcript of a 2-second chunk. -/
theorem C8_empty_segment_list_witness :
    identify_silence_periods ⟨[]⟩ 2 1 (1 / 10) = [(1 / 10, 2 - 1 / 10)] :=
  (C8_empty_segment_list ⟨[]⟩ 2 1 (1 / 10) rfl).1 (by norm_num) (by norm_num)
    (by norm_num)

/-- Counterexample for C8 as stated: with an empty segment list, a 2-second
chunk and the default threshold 1 and buffer 1/10, the chunk duration
exceeds the threshold, yet the function returns the buffered interior
interval, not the whole chunk. -/
theorem C8_whole_chunk_counterexample :
    identify_silence_periods ⟨[]⟩ 2 1 (1 / 10) = [(1 / 10, 19 / 10)] ∧
    identify_silence_periods ⟨[]⟩ 2 1 (1 / 10) ≠ [((0 : ℚ), (2 : ℚ))] := by
  constructor <;>
    norm_num [identify_silence_periods, segmentIntervals, silenceLoop]

/-- Claim C9 (amended): the assembly phase always removes every per-chunk
intermediate file, but the temporary working directory is removed exactly
when some collected chunk re-opens as a usable clip; on the paths where no
chunk succeeds or no clip survives the zero-duration filter, the directory
survives. -/
theorem C9_cleanup_iff_usable_clip (loads : List ChunkLoad) :
    ((assemble loads).tempDirRemoved = true ↔ ChunkLoad.ok ∈ loads) ∧
    (assemble loads).chunkFilesRemaining = 0 := by
  by_cases h0 : loads = []
  · subst h0
    simp [assemble]
  · by_cases hm : ChunkLoad.ok ∈ loads
    · have hf : (loads.filter fun l => decide (l = ChunkLoad.ok)) ≠ [] := by
        intro hcontr
        rw [List.filter_eq_nil_iff] at hcontr
        have := hcontr ChunkLoad.ok hm
        simp at this
      simp [assemble, h0, hf, hm]
    · have hf : (loads.filter fun l => decide (l = ChunkLoad.ok)) = [] := by
        rw [List.filter_eq_nil_iff]
        intro a ha
        simp only [decide_eq_true_eq]
        intro hcontr
        subst hcontr
        exact hm ha
      simp [assemble, h0, hf, hm]

/-- Counterexample for C9 as stated: on the no-success path and on the
no-surviving-clip path the temporary working directory is not removed. -/
theorem C9_failure_paths_keep_temp_dir :
    (assemble []).tempDirRemoved = false ∧
    (assemble [ChunkLoad.zeroDuration]).tempDirRemoved = false ∧
    (assemble [ChunkLoad.loadError, ChunkLoad.zeroDuration]).tempDirRemoved =
      false := by
  decide

/-- Claim C5: on a transcript with occupied intervals at 0-2, 2-4 and 8-10
in a 10-second chunk, `identify_silence_periods` with threshold 1 and buffer
1/10 returns exactly one interval, from 41/10 to 79/10. -/
theorem C5_round_trip :
    identify_silence_periods tRoundTrip 10 1 (1 / 10) = [(41 / 10, 79 / 10)] := by
  norm_num [identify_silence_periods, segmentIntervals, tRoundTrip, silenceLoop]

/-- Claim C1 (evaluation at the failing input): for the chunk from 300 to
600 with transcript `tOffsetChunk`, two silence intervals are detected
(chunk-relative 51/10 to 249/10 and 301/10 to 2999/10), yet after the
translation to source-absolute time the cutter — which subclips the source to
the 300-second chunk and then reads the silences as subclip-relative times —
finds every translated silence start beyond the subclip duration and re-emits
the whole range, excising nothing. -/
theorem C1_translated_silences_not_excised :
    identify_silence_periods tOffsetChunk 300 (1 / 2) (1 / 10) =
      [(51 / 10, 249 / 10), (301 / 10, 2999 / 10)] ∧
    process_video_chunk_cuts tOffsetChunk 300 600 = [(0, 300)] := by
  constructor <;>
    norm_num [identify_silence_periods, process_video_chunk_cuts,
      segmentIntervals, tOffsetChunk, silenceLoop, cut_silences_spans,
      keepLoop]

/-- Claim C2 (evaluation at the failing input): when loading or subclipping
the source raises — before the temp path variable is assigned — the handler's
own variable lookup raises, so the exception escapes `process_video_chunk`
instead of being converted into a failure return. -/
theorem C2_load_failure_escapes :
    process_video_chunk_run (some FailStep.extractLoad) =
      ⟨ProcOutcome.uncaught, false⟩ ∧
    (process_video_chunk_run (some FailStep.extractLoad)).outcome ≠
      ProcOutcome.failure ∧
    (process_video_chunk_run (some FailStep.transcribe)).outcome =
      ProcOutcome.failure := by
  decide

/-- Claim C3 (evaluation at the failing input): an error inside the cutting
step never escapes `cut_silences`, and `process_video_chunk` then returns
success for the chunk rather than reporting the failure. -/
theorem C3_cut_failure_reported_as_success :
    cut_silences_raises true = false ∧
    (process_video_chunk_run (some FailStep.cut)).outcome =
      ProcOutcome.success ∧
    (process_video_chunk_run (some FailStep.cut)).outcome ≠
      ProcOutcome.failure := by
  decide
